import Mathlib

/-!
Verification of the Git change-acknowledgment filter (`src/git.rs`).

The embedding models filesystem paths as lists of components of an absolute
path (the filesystem root is `[]`).  Filesystem effects are abstracted as an
`FS` record: `canonicalize` models `Path::canonicalize` (which may fail, e.g.
for deleted files), `is_dir` models `Path::is_dir`.  The three external git
subprocess invocations of `GitFilter::refresh` are modelled by their observed
results: each invocation either fails to spawn, runs and exits with a
non-success status, or succeeds with a list of repository-relative output
lines, each line already split into path components (an empty line is the
empty list).  `HashSet<PathBuf>` is modelled as `Finset FsPath`.
All definitions are transcribed from `src/git.rs`.
-/

/-- A filesystem path: the list of components of an absolute path.
The filesystem root `/` is `[]`. -/
abbrev FsPath := List String

/-- Abstraction of the filesystem as seen by `git.rs`: `canonicalize` returns
`some` canonical path when the entry exists (`Path::canonicalize` succeeds)
and `none` otherwise; `is_dir` models `Path::is_dir`. -/
structure FS where
  canonicalize : FsPath → Option FsPath
  is_dir : FsPath → Bool

/-- `path.canonicalize().unwrap_or_else(|_| path.to_path_buf())`: the
canonical form when the entry exists, the raw path otherwise. -/
def canonOrSelf (fs : FS) (p : FsPath) : FsPath :=
  (fs.canonicalize p).getD p

/-- A filesystem on which no path can be canonicalized and nothing is a
directory (every `canonicalize` call fails, so raw paths are used). -/
def rawFS : FS :=
  { canonicalize := fun _ => none, is_dir := fun _ => false }

/-- `Path::parent`: drops the last component; `None` at the root. -/
def pathParent : FsPath → Option FsPath
  | [] => none
  | c :: cs => some ((c :: cs).dropLast)

/-- All strict ancestors of a path, from the root downwards.  This is the set
visited by the `while let Some(parent) = current` loops in `git.rs`: for an
absolute path they produce every ancestor directory up to and including the
filesystem root. -/
def ancestorList : FsPath → List FsPath
  | [] => []
  | c :: cs => [] :: (ancestorList cs).map (c :: ·)

/-- The `EXTENSIONS` table of `strip_lua_extension`, in source order. -/
def EXTENSIONS : List String :=
  [".server.luau", ".server.lua", ".client.luau", ".client.lua", ".luau", ".lua"]

/-- `str::strip_suffix`: removes `suffix` from the end of `s` if present. -/
def stripSuffixOpt (s suffix : String) : Option String :=
  if suffix.toList.isSuffixOf s.toList then
    some ⟨s.toList.take (s.toList.length - suffix.toList.length)⟩
  else
    none

/-- The part of a character list before its last `'.'`; `none` when there is
no `'.'`.  Models `str::rsplit_once('.').map(|(base, _)| base)`. -/
def dropAfterLastDot : List Char → Option (List Char)
  | [] => none
  | c :: cs =>
    match dropAfterLastDot cs with
    | some rest => some (c :: rest)
    | none => if c = '.' then some [] else none

/-- `strip_lua_extension` from `git.rs`: strips the first matching entry of
`EXTENSIONS`, and otherwise strips the regular (last-dot) extension when one
exists. -/
def strip_lua_extension (file_name : String) : String :=
  match EXTENSIONS.findSome? (stripSuffixOpt file_name) with
  | some base => base
  | none =>
    match dropAfterLastDot file_name.toList with
    | some base => ⟨base⟩
    | none => file_name

/-- `str::starts_with`. -/
def strStartsWith (s pre : String) : Bool :=
  pre.toList.isPrefixOf s.toList

/-- `HashSet::insert` with the accumulator first, as used by the folds over
ancestor lists below. -/
def finsInsert (s : Finset FsPath) (p : FsPath) : Finset FsPath :=
  insert p s

/-- The state of a `GitFilter` (the `RwLock`s guard the two sets; the
concurrency discipline is not part of the claims modelled here). -/
structure GitFilter where
  repo_root : FsPath
  base_ref : String
  git_changed_paths : Finset FsPath
  session_acknowledged_paths : Finset FsPath
deriving DecidableEq

/-- `GitFilter::acknowledge_meta_files`: for a file `foo.lua` also acknowledge
`foo.meta.json`, and for `init.*` files also acknowledge `init.meta.json` in
the same directory.  Each derived path is canonicalized when possible. -/
def acknowledge_meta_files (fs : FS) (path : FsPath) (acknowledged : Finset FsPath) :
    Finset FsPath :=
  match path.getLast? with
  | none => acknowledged
  | some file_name =>
    match pathParent path with
    | none => acknowledged
    | some parent =>
      let base_name := strip_lua_extension file_name
      let meta_path := parent ++ [base_name ++ ".meta.json"]
      let acknowledged := insert (canonOrSelf fs meta_path) acknowledged
      if strStartsWith file_name "init." then
        insert (canonOrSelf fs (parent ++ ["init.meta.json"])) acknowledged
      else
        acknowledged

/-- `GitFilter::acknowledge_path`: canonicalize if possible, insert the path
itself, all its ancestor directories, and the associated meta files. -/
def acknowledge_path (fs : FS) (path : FsPath) (acknowledged : Finset FsPath) :
    Finset FsPath :=
  let path := canonOrSelf fs path
  let acknowledged := insert path acknowledged
  let acknowledged := (ancestorList path).foldl finsInsert acknowledged
  acknowledge_meta_files fs path acknowledged

/-- `GitFilter::acknowledge_project_path`: insert the canonicalized project
path, its ancestor directories, the default project files when the path is a
directory, and the (canonicalized) parent of the raw path. -/
def acknowledge_project_path (fs : FS) (s : GitFilter) (project_path : FsPath) :
    GitFilter :=
  let canonical := canonOrSelf fs project_path
  let session := insert canonical s.session_acknowledged_paths
  let session := (ancestorList canonical).foldl finsInsert session
  let session :=
    if fs.is_dir project_path then
      (["default.project.json", "default.project.jsonc"].map
        (fun name => canonOrSelf fs (project_path ++ [name]))).foldl
        finsInsert session
    else
      session
  let session :=
    match pathParent project_path with
    | some parent => insert (canonOrSelf fs parent) session
    | none => session
  { s with session_acknowledged_paths := session }

/-- The observed outcome of one git subprocess invocation.  `spawnError` is
`Command::output()` returning `Err` (propagated with `?` in `git.rs`);
`exitError` is a spawned process exiting with a non-success status;
`okLines lines` is a success-status run with the given output lines, each
line split into path components (an empty line is `[]`). -/
inductive QueryOutcome where
  | spawnError
  | exitError
  | okLines (lines : List FsPath)
deriving DecidableEq

/-- The observed results of the three git queries a single `refresh` makes. -/
structure QueryResults where
  diff : QueryOutcome
  untracked : QueryOutcome
  staged : QueryOutcome
deriving DecidableEq

/-- A query invocation that did not succeed: it either failed to spawn or
exited with a non-success status. -/
def queryFailed : QueryOutcome → Bool
  | .spawnError => true
  | .exitError => true
  | .okLines _ => false

/-- One `for line in output.lines()` loop of `refresh`: skip empty lines and
acknowledge `repo_root.join(line)` into the accumulator. -/
def expandLines (fs : FS) (root : FsPath) (lines : List FsPath) (acc : Finset FsPath) :
    Finset FsPath :=
  lines.foldl
    (fun acc line => if line = [] then acc else acknowledge_path fs (root ++ line) acc)
    acc

/-- `GitFilter::refresh`: run the diff query (spawn failure and non-zero exit
are both fatal), the untracked query (likewise fatal), and the staged query —
whose spawn failure is fatal too (the `?` after `.output()`), while a staged
run that merely exits non-zero is tolerated and contributes no lines.  Then
replace `git_changed_paths` and merge into `session_acknowledged_paths`.
The returned state is the state of the filter when the call returns; at an
error return the filter has not yet been written to, exactly as in the
source, where both sets are written only after all three queries. -/
def refresh (fs : FS) (s : GitFilter) (q : QueryResults) :
    GitFilter × Except Unit Unit :=
  match q.diff with
  | .spawnError => (s, .error ())
  | .exitError => (s, .error ())
  | .okLines diffLines =>
    let git_changed := expandLines fs s.repo_root diffLines ∅
    match q.untracked with
    | .spawnError => (s, .error ())
    | .exitError => (s, .error ())
    | .okLines untrackedLines =>
      let git_changed := expandLines fs s.repo_root untrackedLines git_changed
      match q.staged with
      | .spawnError => (s, .error ())
      | .exitError =>
        (⟨s.repo_root, s.base_ref, git_changed,
          s.session_acknowledged_paths ∪ git_changed⟩, .ok ())
      | .okLines stagedLines =>
        let git_changed := expandLines fs s.repo_root stagedLines git_changed
        (⟨s.repo_root, s.base_ref, git_changed,
          s.session_acknowledged_paths ∪ git_changed⟩, .ok ())

/-- `GitFilter::new`: start with empty sets, acknowledge the project path,
then perform the initial refresh; a refresh failure is propagated and the
filter is not produced. -/
def GitFilter.new (fs : FS) (repo_root : FsPath) (base_ref : String)
    (project_path : FsPath) (q : QueryResults) : Except Unit GitFilter :=
  let filter : GitFilter := ⟨repo_root, base_ref, ∅, ∅⟩
  let filter := acknowledge_project_path fs filter project_path
  match refresh fs filter q with
  | (f, .ok _) => .ok f
  | (_, .error e) => .error e

/-- `GitFilter::is_acknowledged`: true when the canonical or raw form of the
path is in the session set, or some session member extends the canonical or
raw form (the descendant check via `Path::starts_with`). -/
def is_acknowledged (fs : FS) (s : GitFilter) (path : FsPath) : Bool :=
  let session := s.session_acknowledged_paths
  let canonical := canonOrSelf fs path
  if canonical ∈ session then true
  else if path ∈ session then true
  else decide (∃ a ∈ session, canonical <+: a ∨ path <+: a)

/-- `GitFilter::force_acknowledge`: expand the path into a fresh set and merge
it into the session set. -/
def force_acknowledge (fs : FS) (s : GitFilter) (path : FsPath) : GitFilter :=
  let acknowledged := acknowledge_path fs path ∅
  { s with
    session_acknowledged_paths := s.session_acknowledged_paths ∪ acknowledged }

/-- The operations that can touch a `GitFilter` during a session. -/
inductive GitFilterOp where
  | refreshOp (q : QueryResults)
  | forceAck (p : FsPath)
  | anchor (p : FsPath)

/-- Apply one operation; a failed refresh leaves the state it returns with. -/
def applyOp (fs : FS) (s : GitFilter) : GitFilterOp → GitFilter
  | .refreshOp q => (refresh fs s q).1
  | .forceAck p => force_acknowledge fs s p
  | .anchor p => acknowledge_project_path fs s p

/-- Apply a sequence of operations in order. -/
def applyOps (fs : FS) (s : GitFilter) (ops : List GitFilterOp) : GitFilter :=
  ops.foldl (applyOp fs) s

/-- A filesystem on which no path can be canonicalized and every path is a
directory. -/
def dirFS : FS :=
  { canonicalize := fun _ => none, is_dir := fun _ => true }

/-- Query results in which all three queries succeed with no output. -/
def qEmptyOk : QueryResults :=
  ⟨.okLines [], .okLines [], .okLines []⟩

/-- Extract the filter from a successful construction, with a fallback. -/
def getFilter (d : GitFilter) : Except Unit GitFilter → GitFilter
  | .ok f => f
  | .error _ => d

/-- A trivial filter used as the fallback of `getFilter`. -/
def emptyFilter : GitFilter :=
  ⟨[], "", ∅, ∅⟩

/-! ### Helper lemmas -/

theorem mem_foldl_finsInsert_of_mem (l : List FsPath) (acc : Finset FsPath)
    (x : FsPath) (h : x ∈ acc) : x ∈ l.foldl finsInsert acc := by
  induction l generalizing acc with
  | nil => exact h
  | cons y ys ih => exact ih _ (Finset.mem_insert_of_mem h)

theorem mem_foldl_finsInsert_of_mem_list (l : List FsPath) (acc : Finset FsPath)
    (x : FsPath) (h : x ∈ l) : x ∈ l.foldl finsInsert acc := by
  induction l generalizing acc with
  | nil => cases h
  | cons y ys ih =>
    rcases List.mem_cons.mp h with rfl | h
    · exact mem_foldl_finsInsert_of_mem ys _ x (Finset.mem_insert_self x acc)
    · exact ih _ h

theorem subset_acknowledge_meta_files (fs : FS) (p : FsPath) (acc : Finset FsPath) :
    acc ⊆ acknowledge_meta_files fs p acc := by
  intro x hx
  unfold acknowledge_meta_files
  cases p.getLast? with
  | none => exact hx
  | some fn =>
    cases pathParent p with
    | none => exact hx
    | some parent =>
      dsimp only
      split
      · exact Finset.mem_insert_of_mem (Finset.mem_insert_of_mem hx)
      · exact Finset.mem_insert_of_mem hx

theorem subset_acknowledge_path (fs : FS) (p : FsPath) (acc : Finset FsPath) :
    acc ⊆ acknowledge_path fs p acc := by
  intro x hx
  unfold acknowledge_path
  dsimp only
  exact subset_acknowledge_meta_files _ _ _
    (mem_foldl_finsInsert_of_mem _ _ _ (Finset.mem_insert_of_mem hx))

theorem subset_expandLines (fs : FS) (root : FsPath) (lines : List FsPath)
    (acc : Finset FsPath) : acc ⊆ expandLines fs root lines acc := by
  induction lines generalizing acc with
  | nil => exact Finset.Subset.refl _
  | cons l ls ih =>
    intro x hx
    show x ∈ expandLines fs root (l :: ls) acc
    unfold expandLines
    dsimp only [List.foldl]
    split
    · exact ih _ hx
    · exact ih _ (subset_acknowledge_path _ _ _ hx)

theorem mem_ancestorList_append (a t : FsPath) (ht : t ≠ []) :
    a ∈ ancestorList (a ++ t) := by
  induction a with
  | nil =>
    cases t with
    | nil => exact absurd rfl ht
    | cons c cs => simp [ancestorList]
  | cons c cs ih =>
    simp only [List.cons_append, ancestorList, List.mem_cons, List.mem_map]
    exact Or.inr ⟨cs, ih, rfl⟩

theorem prefix_mem_acknowledge_path (fs : FS) (p : FsPath) (acc : Finset FsPath)
    (a : FsPath) (h : a <+: canonOrSelf fs p) : a ∈ acknowledge_path fs p acc := by
  obtain ⟨t, ht⟩ := h
  unfold acknowledge_path
  dsimp only
  apply subset_acknowledge_meta_files
  by_cases h0 : t = []
  · subst h0
    rw [List.append_nil] at ht
    subst ht
    exact mem_foldl_finsInsert_of_mem _ _ _ (Finset.mem_insert_self _ _)
  · apply mem_foldl_finsInsert_of_mem_list
    rw [← ht]
    exact mem_ancestorList_append a t h0

theorem refresh_diff_spawnError (fs : FS) (s : GitFilter)
    (u g : QueryOutcome) :
    refresh fs s ⟨.spawnError, u, g⟩ = (s, .error ()) := rfl

theorem refresh_diff_exitError (fs : FS) (s : GitFilter)
    (u g : QueryOutcome) :
    refresh fs s ⟨.exitError, u, g⟩ = (s, .error ()) := rfl

theorem refresh_untracked_spawnError (fs : FS) (s : GitFilter)
    (d : List FsPath) (g : QueryOutcome) :
    refresh fs s ⟨.okLines d, .spawnError, g⟩ = (s, .error ()) := rfl

theorem refresh_untracked_exitError (fs : FS) (s : GitFilter)
    (d : List FsPath) (g : QueryOutcome) :
    refresh fs s ⟨.okLines d, .exitError, g⟩ = (s, .error ()) := rfl

theorem refresh_staged_spawnError (fs : FS) (s : GitFilter)
    (d u : List FsPath) :
    refresh fs s ⟨.okLines d, .okLines u, .spawnError⟩ = (s, .error ()) := rfl

theorem refresh_staged_exitError_eq (fs : FS) (s : GitFilter)
    (d u : List FsPath) :
    refresh fs s ⟨.okLines d, .okLines u, .exitError⟩ =
      (⟨s.repo_root, s.base_ref,
        expandLines fs s.repo_root u (expandLines fs s.repo_root d ∅),
        s.session_acknowledged_paths ∪
          expandLines fs s.repo_root u (expandLines fs s.repo_root d ∅)⟩,
       .ok ()) := rfl

theorem refresh_ok_eq (fs : FS) (s : GitFilter) (d u g : List FsPath) :
    refresh fs s ⟨.okLines d, .okLines u, .okLines g⟩ =
      (⟨s.repo_root, s.base_ref,
        expandLines fs s.repo_root g
          (expandLines fs s.repo_root u (expandLines fs s.repo_root d ∅)),
        s.session_acknowledged_paths ∪
          expandLines fs s.repo_root g
            (expandLines fs s.repo_root u (expandLines fs s.repo_root d ∅))⟩,
       .ok ()) := rfl

theorem session_subset_refresh (fs : FS) (s : GitFilter) (q : QueryResults) :
    s.session_acknowledged_paths ⊆ (refresh fs s q).1.session_acknowledged_paths := by
  obtain ⟨d, u, g⟩ := q
  cases d with
  | spawnError => rw [refresh_diff_spawnError]
  | exitError => rw [refresh_diff_exitError]
  | okLines d =>
    cases u with
    | spawnError => rw [refresh_untracked_spawnError]
    | exitError => rw [refresh_untracked_exitError]
    | okLines u =>
      cases g with
      | spawnError => rw [refresh_staged_spawnError]
      | exitError =>
        rw [refresh_staged_exitError_eq]; exact Finset.subset_union_left
      | okLines g => rw [refresh_ok_eq]; exact Finset.subset_union_left

theorem mem_acknowledge_project_path_of_stage (fs : FS) (s : GitFilter)
    (pp x : FsPath)
    (hx : x ∈ (ancestorList (canonOrSelf fs pp)).foldl finsInsert
      (insert (canonOrSelf fs pp) s.session_acknowledged_paths)) :
    x ∈ (acknowledge_project_path fs s pp).session_acknowledged_paths := by
  unfold acknowledge_project_path
  dsimp only
  split
  · apply Finset.mem_insert_of_mem
    split
    · exact mem_foldl_finsInsert_of_mem _ _ _ hx
    · exact hx
  · split
    · exact mem_foldl_finsInsert_of_mem _ _ _ hx
    · exact hx

theorem session_subset_acknowledge_project_path (fs : FS) (s : GitFilter)
    (pp : FsPath) :
    s.session_acknowledged_paths ⊆
      (acknowledge_project_path fs s pp).session_acknowledged_paths :=
  fun _ hx => mem_acknowledge_project_path_of_stage _ _ _ _
    (mem_foldl_finsInsert_of_mem _ _ _ (Finset.mem_insert_of_mem hx))

theorem prefix_mem_acknowledge_project_path (fs : FS) (s : GitFilter)
    (pp a : FsPath) (h : a <+: canonOrSelf fs pp) :
    a ∈ (acknowledge_project_path fs s pp).session_acknowledged_paths := by
  apply mem_acknowledge_project_path_of_stage
  obtain ⟨t, ht⟩ := h
  by_cases h0 : t = []
  · subst h0
    rw [List.append_nil] at ht
    subst ht
    exact mem_foldl_finsInsert_of_mem _ _ _ (Finset.mem_insert_self _ _)
  · apply mem_foldl_finsInsert_of_mem_list
    rw [← ht]
    exact mem_ancestorList_append a t h0

theorem session_subset_force_acknowledge (fs : FS) (s : GitFilter) (p : FsPath) :
    s.session_acknowledged_paths ⊆
      (force_acknowledge fs s p).session_acknowledged_paths := by
  unfold force_acknowledge
  exact Finset.subset_union_left

theorem session_subset_applyOp (fs : FS) (s : GitFilter) (o : GitFilterOp) :
    s.session_acknowledged_paths ⊆ (applyOp fs s o).session_acknowledged_paths := by
  cases o with
  | refreshOp q => exact session_subset_refresh fs s q
  | forceAck p => exact session_subset_force_acknowledge fs s p
  | anchor p => exact session_subset_acknowledge_project_path fs s p

theorem session_subset_applyOps (fs : FS) (s : GitFilter) (ops : List GitFilterOp) :
    s.session_acknowledged_paths ⊆ (applyOps fs s ops).session_acknowledged_paths := by
  induction ops generalizing s with
  | nil => exact Finset.Subset.refl _
  | cons o os ih =>
    exact (session_subset_applyOp fs s o).trans (ih (applyOp fs s o))

theorem pathParent_concat (l : FsPath) (a : String) :
    pathParent (l ++ [a]) = some l := by
  cases l with
  | nil => rfl
  | cons c cs =>
    show pathParent (c :: (cs ++ [a])) = some (c :: cs)
    rw [pathParent]
    rw [show c :: (cs ++ [a]) = (c :: cs) ++ [a] from rfl, List.dropLast_concat]

theorem prefix_of_mem_ancestorList (a p : FsPath) (h : a ∈ ancestorList p) :
    a <+: p := by
  induction p generalizing a with
  | nil => cases h
  | cons c cs ih =>
    simp only [ancestorList, List.mem_cons, List.mem_map] at h
    rcases h with rfl | ⟨b, hb, rfl⟩
    · exact List.nil_prefix
    · obtain ⟨t, ht⟩ := ih b hb
      exact ⟨t, by rw [List.cons_append, ht]⟩

theorem session_subset_refreshFold (fs : FS) (s : GitFilter)
    (qs : List QueryResults) :
    s.session_acknowledged_paths ⊆
      (qs.foldl (fun s q => (refresh fs s q).1) s).session_acknowledged_paths := by
  induction qs generalizing s with
  | nil => exact Finset.Subset.refl _
  | cons q rest ih =>
    exact (session_subset_refresh fs s q).trans (ih (refresh fs s q).1)

theorem default_project_mem_acknowledge_project_path (fs : FS) (s : GitFilter)
    (pp : FsPath) (hdir : fs.is_dir pp = true) :
    canonOrSelf fs (pp ++ ["default.project.json"]) ∈
      (acknowledge_project_path fs s pp).session_acknowledged_paths ∧
    canonOrSelf fs (pp ++ ["default.project.jsonc"]) ∈
      (acknowledge_project_path fs s pp).session_acknowledged_paths := by
  unfold acknowledge_project_path
  dsimp only
  rw [hdir]
  constructor
  · split
    · exact Finset.mem_insert_of_mem
        (mem_foldl_finsInsert_of_mem_list _ _ _ (by simp))
    · exact mem_foldl_finsInsert_of_mem_list _ _ _ (by simp)
  · split
    · exact Finset.mem_insert_of_mem
        (mem_foldl_finsInsert_of_mem_list _ _ _ (by simp))
    · exact mem_foldl_finsInsert_of_mem_list _ _ _ (by simp)

/-! ### Claims -/

/-- Claim C1: the session-acknowledged set is monotonically non-decreasing.
For every sequence of operations (refresh, force-acknowledge, anchor
registration) on a `GitFilter`, a path that is a member of
`session_acknowledged_paths` is still a member after the whole sequence:
every operation only inserts into the set. -/
theorem session_acknowledged_monotone (fs : FS) (s : GitFilter)
    (ops : List GitFilterOp) (p : FsPath)
    (h : p ∈ s.session_acknowledged_paths) :
    p ∈ (applyOps fs s ops).session_acknowledged_paths :=
  session_subset_applyOps fs s ops h

/-- Concrete instantiation of `session_acknowledged_monotone`. -/
theorem session_acknowledged_monotone_witness :
    (["a"] : FsPath) ∈ ({["a"]} : Finset FsPath) ∧
    (["a"] : FsPath) ∈ (applyOps rawFS ⟨["r"], "HEAD", ∅, {["a"]}⟩
      [.forceAck ["b"], .refreshOp ⟨.okLines [["c"]], .okLines [], .okLines []⟩,
       .anchor ["d"]]).session_acknowledged_paths :=
  ⟨by decide,
   session_acknowledged_monotone rawFS ⟨["r"], "HEAD", ∅, {["a"]}⟩
     [.forceAck ["b"], .refreshOp ⟨.okLines [["c"]], .okLines [], .okLines []⟩,
      .anchor ["d"]]
     ["a"] (by decide)⟩

/-- Claim C2: `is_acknowledged` returns `true` exactly when the path, in
canonical or raw form, is a member of the session-acknowledged set, or some
member of the session-acknowledged set has the path (canonical or raw) as a
proper prefix (the path is an ancestor of an acknowledged entry).  The
function reads the state and mutates nothing. -/
theorem is_acknowledged_iff (fs : FS) (s : GitFilter) (p : FsPath) :
    is_acknowledged fs s p = true ↔
      (canonOrSelf fs p ∈ s.session_acknowledged_paths ∨
       p ∈ s.session_acknowledged_paths ∨
       ∃ a ∈ s.session_acknowledged_paths,
         (canonOrSelf fs p <+: a ∧ canonOrSelf fs p ≠ a) ∨
         (p <+: a ∧ p ≠ a)) := by
  unfold is_acknowledged
  dsimp only
  split_ifs with h1 h2
  · exact iff_of_true rfl (Or.inl h1)
  · exact iff_of_true rfl (Or.inr (Or.inl h2))
  · simp only [decide_eq_true_eq]
    constructor
    · rintro ⟨a, ha, hpre | hpre⟩
      · by_cases he : canonOrSelf fs p = a
        · exact absurd (by rw [he]; exact ha) h1
        · exact Or.inr (Or.inr ⟨a, ha, Or.inl ⟨hpre, he⟩⟩)
      · by_cases he : p = a
        · exact absurd (by rw [he]; exact ha) h2
        · exact Or.inr (Or.inr ⟨a, ha, Or.inr ⟨hpre, he⟩⟩)
    · rintro (h | h | ⟨a, ha, ⟨hpre, _⟩ | ⟨hpre, _⟩⟩)
      · exact absurd h h1
      · exact absurd h h2
      · exact ⟨a, ha, Or.inl hpre⟩
      · exact ⟨a, ha, Or.inr hpre⟩

/-- Claim C3: refresh is atomic with respect to failure — whenever `refresh`
returns an error, both `git_changed_paths` and `session_acknowledged_paths`
are exactly as they were before the call. -/
theorem refresh_error_atomic (fs : FS) (s : GitFilter) (q : QueryResults)
    (h : (refresh fs s q).2 = .error ()) :
    (refresh fs s q).1.git_changed_paths = s.git_changed_paths ∧
    (refresh fs s q).1.session_acknowledged_paths =
      s.session_acknowledged_paths := by
  obtain ⟨d, u, g⟩ := q
  cases d with
  | spawnError => rw [refresh_diff_spawnError]; exact ⟨rfl, rfl⟩
  | exitError => rw [refresh_diff_exitError]; exact ⟨rfl, rfl⟩
  | okLines d =>
    cases u with
    | spawnError => rw [refresh_untracked_spawnError]; exact ⟨rfl, rfl⟩
    | exitError => rw [refresh_untracked_exitError]; exact ⟨rfl, rfl⟩
    | okLines u =>
      cases g with
      | spawnError => rw [refresh_staged_spawnError]; exact ⟨rfl, rfl⟩
      | exitError => rw [refresh_staged_exitError_eq] at h; simp at h
      | okLines g => rw [refresh_ok_eq] at h; simp at h

/-- Concrete instantiation of `refresh_error_atomic`. -/
theorem refresh_error_atomic_witness :
    (refresh rawFS ⟨["r"], "HEAD", {["x"]}, {["y"]}⟩
      ⟨.spawnError, .okLines [], .okLines []⟩).2 = .error () ∧
    ((refresh rawFS ⟨["r"], "HEAD", {["x"]}, {["y"]}⟩
        ⟨.spawnError, .okLines [], .okLines []⟩).1.git_changed_paths = {["x"]} ∧
     (refresh rawFS ⟨["r"], "HEAD", {["x"]}, {["y"]}⟩
        ⟨.spawnError, .okLines [], .okLines []⟩).1.session_acknowledged_paths = {["y"]}) :=
  ⟨rfl, refresh_error_atomic rawFS ⟨["r"], "HEAD", {["x"]}, {["y"]}⟩
    ⟨.spawnError, .okLines [], .okLines []⟩ rfl⟩

/-- Counterexample to claim C4 as stated ("refresh fails iff a mandatory
query fails"): with both mandatory queries succeeding with empty output and
the staged subprocess failing to spawn (the `?` after `.output()` at the
staged query in `git.rs`), `refresh` returns an error even though no
mandatory query failed. -/
theorem refresh_error_iff_mandatory_counterexample :
    ¬((refresh rawFS ⟨["r"], "HEAD", ∅, ∅⟩
        ⟨.okLines [], .okLines [], .spawnError⟩).2 = .error () ↔
      (queryFailed (⟨.okLines [], .okLines [],
          .spawnError⟩ : QueryResults).diff = true ∨
       queryFailed (⟨.okLines [], .okLines [],
          .spawnError⟩ : QueryResults).untracked = true)) := by
  intro hiff
  rcases hiff.mp rfl with h | h <;> exact Bool.noConfusion h

/-- Claim C4 (amended): `refresh` returns an error exactly when the diff
query fails, the untracked query fails, or the staged subprocess fails to
spawn; a staged query that runs but exits non-zero is tolerated and is
equivalent to a staged query reporting no lines (its contribution is
empty). -/
theorem refresh_error_iff_amended (fs : FS) (s : GitFilter) (q : QueryResults)
    (d u : QueryOutcome) :
    ((refresh fs s q).2 = .error () ↔
      queryFailed q.diff = true ∨ queryFailed q.untracked = true ∨
      q.staged = .spawnError) ∧
    refresh fs s ⟨d, u, .exitError⟩ = refresh fs s ⟨d, u, .okLines []⟩ := by
  constructor
  · obtain ⟨qd, qu, qg⟩ := q
    cases qd with
    | spawnError => simp [refresh_diff_spawnError, queryFailed]
    | exitError => simp [refresh_diff_exitError, queryFailed]
    | okLines dl =>
      cases qu with
      | spawnError => simp [refresh_untracked_spawnError, queryFailed]
      | exitError => simp [refresh_untracked_exitError, queryFailed]
      | okLines ul =>
        cases qg with
        | spawnError => simp [refresh_staged_spawnError, queryFailed]
        | exitError => simp [refresh_staged_exitError_eq, queryFailed]
        | okLines gl => simp [refresh_ok_eq, queryFailed]
  · cases d with
    | spawnError => rfl
    | exitError => rfl
    | okLines dl =>
      cases u with
      | spawnError => rfl
      | exitError => rfl
      | okLines ul => rfl

/-- Claim C5: ancestor closure — every expansion of a path inserts the
(canonicalized) path itself and all of its ancestor directories up to and
including the filesystem root, both in `acknowledge_path` (used by refresh
and force-acknowledge) and in `acknowledge_project_path` (anchor
registration).  Prefixes of the canonical path are exactly the path and its
ancestors. -/
theorem acknowledge_ancestor_closure (fs : FS) (p : FsPath)
    (acc : Finset FsPath) (s : GitFilter) (a : FsPath) :
    (a <+: canonOrSelf fs p → a ∈ acknowledge_path fs p acc) ∧
    (a <+: canonOrSelf fs p →
      a ∈ (acknowledge_project_path fs s p).session_acknowledged_paths) :=
  ⟨prefix_mem_acknowledge_path fs p acc a,
   prefix_mem_acknowledge_project_path fs s p a⟩

/-- Concrete instantiation of `acknowledge_ancestor_closure`: the filesystem
root is inserted when a two-component path is expanded, and the first
component when a two-component project path is anchored. -/
theorem acknowledge_ancestor_closure_witness :
    ([] : FsPath) ∈ acknowledge_path rawFS ["src", "a.lua"] ∅ ∧
    (["src"] : FsPath) ∈
      (acknowledge_project_path rawFS emptyFilter
        ["src", "p"]).session_acknowledged_paths :=
  ⟨(acknowledge_ancestor_closure rawFS ["src", "a.lua"] ∅ emptyFilter []).1
     (by decide),
   (acknowledge_ancestor_closure rawFS ["src", "p"] ∅ emptyFilter ["src"]).2
     (by decide)⟩

/-- Claim C6: metadata-sibling derivation.  `strip_lua_extension` strips a
recognized source-extension suffix in the fixed precedence order — the
double-segment `.server.luau` / `.server.lua` / `.client.luau` /
`.client.lua` before the single `.luau` / `.lua` before generic last-dot
stripping (so `a.server.luau` yields `a`, not `a.server`) — and
`acknowledge_meta_files` appends `.meta.json` in the same directory: a file
named `foo.server.lua` also acknowledges `foo.meta.json`, and one named
`init.lua` also acknowledges `init.meta.json`. -/
theorem strip_lua_meta_derivation :
    strip_lua_extension "foo.server.luau" = "foo" ∧
    strip_lua_extension "foo.server.lua" = "foo" ∧
    strip_lua_extension "foo.client.luau" = "foo" ∧
    strip_lua_extension "foo.client.lua" = "foo" ∧
    strip_lua_extension "foo.luau" = "foo" ∧
    strip_lua_extension "foo.lua" = "foo" ∧
    strip_lua_extension "a.server.luau" = "a" ∧
    strip_lua_extension "b.client.lua" = "b" ∧
    strip_lua_extension "bar.txt" = "bar" ∧
    strip_lua_extension "noextension" = "noextension" ∧
    (∀ (fs : FS) (par : FsPath) (acc : Finset FsPath),
      canonOrSelf fs (par ++ ["foo.meta.json"]) ∈
        acknowledge_meta_files fs (par ++ ["foo.server.lua"]) acc) ∧
    (∀ (fs : FS) (par : FsPath) (acc : Finset FsPath),
      canonOrSelf fs (par ++ ["init.meta.json"]) ∈
        acknowledge_meta_files fs (par ++ ["init.lua"]) acc) := by
  refine ⟨by decide, by decide, by decide, by decide, by decide, by decide,
    by decide, by decide, by decide, by decide, ?_, ?_⟩
  · intro fs par acc
    unfold acknowledge_meta_files
    simp only [List.getLast?_concat, pathParent_concat]
    rw [show strip_lua_extension "foo.server.lua" = "foo" from by decide]
    rw [show strStartsWith "foo.server.lua" "init." = false from by decide]
    simp only [Bool.false_eq_true, if_false]
    rw [show ("foo" ++ ".meta.json" : String) = "foo.meta.json" from rfl]
    exact Finset.mem_insert_self _ _
  · intro fs par acc
    unfold acknowledge_meta_files
    simp only [List.getLast?_concat, pathParent_concat]
    rw [show strStartsWith "init.lua" "init." = true from by decide]
    simp only [if_true]
    exact Finset.mem_insert_self _ _

/-- Claim C7: anchor permanence.  When construction succeeds, the canonical
project path, all of its ancestor directories, and (when the project path is
a directory) the derived default project files are members of the
session-acknowledged set of the new filter, and any member of that set is
still a member after any number of subsequent refreshes. -/
theorem anchor_permanence (fs : FS) (rr : FsPath) (br : String) (pp : FsPath)
    (q : QueryResults) (s0 : GitFilter)
    (h : GitFilter.new fs rr br pp q = .ok s0) :
    canonOrSelf fs pp ∈ s0.session_acknowledged_paths ∧
    (∀ a ∈ ancestorList (canonOrSelf fs pp),
      a ∈ s0.session_acknowledged_paths) ∧
    (fs.is_dir pp = true →
      canonOrSelf fs (pp ++ ["default.project.json"]) ∈
        s0.session_acknowledged_paths ∧
      canonOrSelf fs (pp ++ ["default.project.jsonc"]) ∈
        s0.session_acknowledged_paths) ∧
    (∀ (qs : List QueryResults) (p : FsPath),
      p ∈ s0.session_acknowledged_paths →
      p ∈ (qs.foldl (fun s q => (refresh fs s q).1)
        s0).session_acknowledged_paths) := by
  unfold GitFilter.new at h
  dsimp only at h
  rcases hr : refresh fs (acknowledge_project_path fs ⟨rr, br, ∅, ∅⟩ pp) q
    with ⟨f, r⟩
  rw [hr] at h
  cases r with
  | error e => simp at h
  | ok u =>
    simp only [Except.ok.injEq] at h
    subst h
    have hsub : (acknowledge_project_path fs ⟨rr, br, ∅, ∅⟩
        pp).session_acknowledged_paths ⊆ f.session_acknowledged_paths := by
      have h2 := session_subset_refresh fs
        (acknowledge_project_path fs ⟨rr, br, ∅, ∅⟩ pp) q
      rw [hr] at h2
      exact h2
    refine ⟨?_, ?_, ?_, ?_⟩
    · exact hsub (prefix_mem_acknowledge_project_path fs _ pp
        (canonOrSelf fs pp) (List.prefix_refl _))
    · intro a ha
      exact hsub (prefix_mem_acknowledge_project_path fs _ pp a
        (prefix_of_mem_ancestorList a _ ha))
    · intro hdir
      have hd := default_project_mem_acknowledge_project_path fs
        ⟨rr, br, ∅, ∅⟩ pp hdir
      exact ⟨hsub hd.1, hsub hd.2⟩
    · intro qs p hp
      exact session_subset_refreshFold fs f qs hp

/-- Concrete instantiation of `anchor_permanence`: a successful construction
on a directory project path, its derived project file, and survival of the
anchor across a further refresh. -/
theorem anchor_permanence_witness :
    canonOrSelf dirFS ["p"] ∈
      (getFilter emptyFilter (GitFilter.new dirFS ["r"] "HEAD" ["p"]
        qEmptyOk)).session_acknowledged_paths ∧
    canonOrSelf dirFS (["p"] ++ ["default.project.json"]) ∈
      (getFilter emptyFilter (GitFilter.new dirFS ["r"] "HEAD" ["p"]
        qEmptyOk)).session_acknowledged_paths ∧
    canonOrSelf dirFS ["p"] ∈
      (([qEmptyOk] : List QueryResults).foldl
        (fun s q => (refresh dirFS s q).1)
        (getFilter emptyFilter (GitFilter.new dirFS ["r"] "HEAD" ["p"]
          qEmptyOk))).session_acknowledged_paths := by
  have h : GitFilter.new dirFS ["r"] "HEAD" ["p"] qEmptyOk =
      .ok (getFilter emptyFilter
        (GitFilter.new dirFS ["r"] "HEAD" ["p"] qEmptyOk)) := rfl
  have ha := anchor_permanence dirFS ["r"] "HEAD" ["p"] qEmptyOk _ h
  exact ⟨ha.1, (ha.2.2.1 rfl).1, ha.2.2.2 [qEmptyOk] _ ha.1⟩

/-- Claim C8: idempotence of refresh.  Two consecutive `refresh` calls that
receive identical outputs from all three external queries leave the
session-acknowledged set exactly as the first call left it, and also leave
the current-change set unchanged. -/
theorem refresh_idempotent (fs : FS) (s : GitFilter) (q : QueryResults) :
    ((refresh fs (refresh fs s q).1 q).1.session_acknowledged_paths =
      (refresh fs s q).1.session_acknowledged_paths) ∧
    ((refresh fs (refresh fs s q).1 q).1.git_changed_paths =
      (refresh fs s q).1.git_changed_paths) := by
  obtain ⟨d, u, g⟩ := q
  cases d with
  | spawnError => rw [refresh_diff_spawnError]; exact ⟨rfl, rfl⟩
  | exitError => rw [refresh_diff_exitError]; exact ⟨rfl, rfl⟩
  | okLines d =>
    cases u with
    | spawnError => rw [refresh_untracked_spawnError]; exact ⟨rfl, rfl⟩
    | exitError => rw [refresh_untracked_exitError]; exact ⟨rfl, rfl⟩
    | okLines u =>
      cases g with
      | spawnError => rw [refresh_staged_spawnError]; exact ⟨rfl, rfl⟩
      | exitError =>
        simp only [refresh_staged_exitError_eq]
        refine ⟨?_, ?_⟩ <;> simp [Finset.union_assoc, Finset.union_self]
      | okLines g =>
        simp only [refresh_ok_eq]
        refine ⟨?_, ?_⟩ <;> simp [Finset.union_assoc, Finset.union_self]

/-- Claim C9: the acknowledgment closure merged into the session-acknowledged
set is the same whether a path is expanded because a refresh query reported
the line resolving to it or because `force_acknowledge` was called on it:
both callers invoke the identical `acknowledge_path` expansion. -/
theorem refresh_force_expansion_agree (fs : FS) (s : GitFilter) (l : FsPath)
    (h : l ≠ []) :
    (refresh fs s
        ⟨.okLines [l], .okLines [], .okLines []⟩).1.session_acknowledged_paths =
      (force_acknowledge fs s
        (s.repo_root ++ l)).session_acknowledged_paths := by
  rw [refresh_ok_eq]
  unfold force_acknowledge
  dsimp only
  congr 1
  unfold expandLines
  simp [h]

/-- Concrete instantiation of `refresh_force_expansion_agree`. -/
theorem refresh_force_expansion_agree_witness :
    (refresh rawFS ⟨["r"], "HEAD", ∅, ∅⟩
      ⟨.okLines [["a.lua"]], .okLines [],
       .okLines []⟩).1.session_acknowledged_paths =
      (force_acknowledge rawFS ⟨["r"], "HEAD", ∅, ∅⟩
        (["r"] ++ ["a.lua"])).session_acknowledged_paths :=
  refresh_force_expansion_agree rawFS ⟨["r"], "HEAD", ∅, ∅⟩ ["a.lua"]
    (by decide)

/-- Claim C10: `force_acknowledge` modifies only the session-acknowledged
set — the current-change set, the repository root and the base reference are
unchanged. -/
theorem force_acknowledge_frame (fs : FS) (s : GitFilter) (p : FsPath) :
    (force_acknowledge fs s p).git_changed_paths = s.git_changed_paths ∧
    (force_acknowledge fs s p).repo_root = s.repo_root ∧
    (force_acknowledge fs s p).base_ref = s.base_ref :=
  ⟨rfl, rfl, rfl⟩
